import Mathlib

/-!
# prologistics-proxy: verification of the time-window route sweep engine

Shallow embedding of the JavaScript sources of the transit proxy: the LRU
caches and the inflight deduplication layer, the bounded-concurrency pool,
the candidate time generator, the HERE route normalization with the
Deutschlandticket product filter, and the sweep orchestrators of the
Google/DB variant (src/server.js) and the HERE variants (src/unnamed).

Modelling conventions. JS numbers holding integral epoch times, minutes and
counts become Int or Nat. A JS Map becomes an association list in insertion
order (Map keys are unique, iteration is insertion order, delete-then-set
moves a key to the end). Promise-based control flow becomes explicit state
passing; one synchronous segment of the event loop (code between two awaits)
is one atomic step. Thrown exceptions become Except. The JS or-else operator
on strings treats the empty string as falsy, and on numbers treats 0 as
falsy, which the jsOr functions below reproduce; an absent (undefined)
string field is modelled as the empty string, which the or-else chains and
the product-set membership tests cannot distinguish from undefined.
-/

namespace Prologistics

/-- JS or-else on Nat values: 0 is falsy, so a or-else b is b when a = 0. -/
def jsOrN (a b : Nat) : Nat := if a = 0 then b else a

/-- JS or-else on Int values: 0 is falsy. -/
def jsOrI (a b : Int) : Int := if a = 0 then b else a

/-- JS or-else on String values: the empty string is falsy. -/
def jsOrS (a b : String) : String := if a = "" then b else a

/-- Math.ceil(w / d) for nonnegative integers, as ceiling division. -/
def natCeilDiv (w d : Nat) : Nat := (w + d - 1) / d

/-- JS String.prototype.trim: strip whitespace from both ends. -/
def jsTrim (s : String) : String :=
  String.mk (((s.data.dropWhile Char.isWhitespace).reverse.dropWhile
    Char.isWhitespace).reverse)

/-- The arrive-by or depart-after mode of a sweep. -/
inductive Mode where
  | arrive
  | depart
deriving DecidableEq

/-- The opposite mode, used by the fallback pass of sweepBest. -/
def oppMode : Mode → Mode
  | .arrive => .depart
  | .depart => .arrive

/-! ## The LRU caches (part_000 lines 465-470)

A cache is a list of key-value entries in Map insertion order: the front is
the least recently used entry, the back the most recently used one. -/

/-- The keys of a cache in insertion order. -/
def keysOf {V : Type} (c : List (String × V)) : List String := c.map Prod.fst

/-- First entry with the given key, as Map.prototype.get (keys are unique). -/
def lookupL {V : Type} : List (String × V) → String → Option V
  | [], _ => none
  | (k, v) :: rest, key => if k = key then some v else lookupL rest key

/-- Map.prototype.delete on the key (removes the entry with that key). -/
def eraseKey {V : Type} (c : List (String × V)) (key : String) :
    List (String × V) := c.filter (fun e => e.1 ≠ key)

/-- lruGet (part_000 line 465): on a hit the entry is deleted and re-set,
which moves it to the most-recently-used end of the iteration order; the
value and the updated cache are returned. -/
def lruGet {V : Type} (c : List (String × V)) (key : String) :
    Option V × List (String × V) :=
  match lookupL c key with
  | none => (none, c)
  | some v => (some v, eraseKey c key ++ [(key, v)])

/-- lruSet (part_000 lines 466-470): delete any existing entry, insert at the
most-recently-used end, and when the size exceeds max delete the first key in
iteration order, which is the least recently used entry. -/
def lruSet {V : Type} (c : List (String × V)) (key : String) (v : V)
    (max : Nat) : List (String × V) :=
  let c1 := eraseKey c key ++ [(key, v)]
  if max < c1.length then c1.tail else c1

/-- Inserting a list of keys into an empty cache in order, each through
lruSet, with values given by val. -/
def insertAll (V : Type) (val : String → V) (cap : Nat) (ks : List String) :
    List (String × V) :=
  ks.foldl (fun c k => lruSet c k (val k) cap) []

/-! ## The inflight deduplicator (part_000 lines 473-478, 563-573)

The state of one cache-plus-inflight pair: the LRU cache, the inflight bag
mapping keys to pending promises (promises are numbered), the next fresh
promise number, and a counter of compute invocations (how many times the
upstream maker has been called). -/

structure DedupState (V : Type) where
  cache : List (String × V)
  bag : List (String × Nat)
  nextP : Nat
  invocations : Nat
deriving DecidableEq

/-- What a resolve call attaches to: a cached value returned at once, or a
promise (fresh or already in flight) whose value arrives later. -/
inductive Attach (V : Type) where
  | cached (v : V)
  | promise (pid : Nat)
deriving DecidableEq

/-- JS truthiness of a cached value. Both caches only ever store plain
objects (success and failure outcomes alike) and objects are truthy, so the
if-cached guard in the source coincides with presence. -/
def truthy {V : Type} (_ : V) : Bool := true

/-- The inflight wrapper (part_000 lines 473-478) on a cache miss: if the bag
holds a promise for the key the caller attaches to it and nothing else
happens; otherwise the maker is invoked, a fresh promise is registered in the
bag, and the caller attaches to it. In the source the bag lookup, the maker
invocation up to its first await and the bag registration run with no
intervening await, hence as one atomic event-loop segment. -/
def resolveMiss {V : Type} (key : String) (s : DedupState V) :
    Attach V × DedupState V :=
  match lookupL s.bag key with
  | some pid => (Attach.promise pid, s)
  | none =>
      (Attach.promise s.nextP,
       { s with
          bag := (key, s.nextP) :: s.bag,
          nextP := s.nextP + 1,
          invocations := s.invocations + 1 })

/-- One resolve call of hereTransitOnceCached (part_000 lines 563-573) or of
the geocode cache (lines 273-276) up to its first await: the lruGet cache
lookup with its truthiness guard, then on a miss the inflight path. -/
def resolveBegin {V : Type} (key : String) (s : DedupState V) :
    Attach V × DedupState V :=
  match lruGet s.cache key with
  | (some v, cache1) =>
      if truthy v then (Attach.cached v, { s with cache := cache1 })
      else resolveMiss key { s with cache := cache1 }
  | (none, _) => resolveMiss key s

/-- Completion of the inflight computation for a key: the maker stores the
outcome in the cache through lruSet and the finally handler deletes the bag
entry (part_000 lines 475, 568-571). -/
def resolveComplete {V : Type} (key : String) (v : V) (max : Nat)
    (s : DedupState V) : DedupState V :=
  { s with cache := lruSet s.cache key v max, bag := eraseKey s.bag key }

/-- The value a caller eventually receives: a cached value directly, or the
settlement value of the promise it attached to. -/
def callerResult {V : Type} (a : Attach V) (valueOf : Nat → V) : V :=
  match a with
  | .cached v => v
  | .promise pid => valueOf pid

/-! ## Helper lemmas about the cache structure -/

theorem eraseKey_of_not_mem {V : Type} {c : List (String × V)} {key : String}
    (h : key ∉ keysOf c) : eraseKey c key = c := by
  rw [eraseKey, List.filter_eq_self]
  intro e he
  simp only [decide_eq_true_eq]
  intro hk
  exact h (hk ▸ List.mem_map_of_mem Prod.fst he)

theorem lookupL_eraseKey_append {V : Type} (c : List (String × V))
    (key k2 : String) (v : V) (h : k2 ≠ key) :
    lookupL (eraseKey c key ++ [(key, v)]) k2 = lookupL c k2 := by
  induction c with
  | nil =>
      have hne : ¬ (key = k2) := fun hk => h hk.symm
      simp [eraseKey, lookupL, hne]
  | cons e rest ih =>
      obtain ⟨k1, v1⟩ := e
      by_cases hk : k1 = key
      · subst hk
        have hne : ¬ (k1 = k2) := fun hh => h (hh.symm)
        simp [eraseKey, lookupL, hne] at ih ⊢
        simpa [eraseKey] using ih
      · by_cases hk2 : k1 = k2
        · subst hk2
          simp [eraseKey, lookupL, hk]
        · simp [eraseKey, lookupL, hk, hk2] at ih ⊢
          simpa [eraseKey] using ih

theorem insertAll_fits (V : Type) (val : String → V) (cap : Nat) :
    ∀ (ks : List String), ks.Nodup → ks.length ≤ cap →
      insertAll V val cap ks = ks.map (fun k => (k, val k)) := by
  intro ks
  induction ks using List.reverseRecOn with
  | nil => intro _ _; simp [insertAll]
  | append_singleton ks k ih =>
      intro hnd hlen
      rw [List.nodup_append] at hnd
      have hk : k ∉ ks := by
        intro hmem
        exact hnd.2.2 hmem (List.mem_singleton_self k)
      have hlen1 : ks.length ≤ cap := by
        simp at hlen; omega
      have hstep : insertAll V val cap (ks ++ [k]) =
          lruSet (insertAll V val cap ks) k (val k) cap := by
        rw [insertAll, List.foldl_append]; rfl
      rw [hstep, ih hnd.1 hlen1]
      have hkk : k ∉ keysOf (ks.map (fun k => (k, val k))) := by
        simpa [keysOf, List.map_map, Function.comp] using hk
      rw [lruSet]
      simp only [eraseKey_of_not_mem hkk]
      have hlen2 : ((ks.map (fun k => (k, val k))) ++ [(k, val k)]).length =
          ks.length + 1 := by simp
      rw [if_neg (by simp at hlen ⊢; omega)]
      simp

/-! ## Claim theorems about the cache and the deduplicator -/

/-- Claim C4: for every key already present in the cache, a resolve call
returns the cached value, never invokes compute (the invocation counter and
the inflight bag are unchanged), and marks the key most recently used (its
entry moves to the back of the iteration order, all other keys unchanged);
this holds for any stored value, success or failure outcome alike, since
both are truthy objects. -/
theorem C4_cached_hit (V : Type) (key : String) (v : V) (s : DedupState V)
    (h : lookupL s.cache key = some v) :
    (resolveBegin key s).1 = Attach.cached v ∧
    (resolveBegin key s).2.invocations = s.invocations ∧
    (resolveBegin key s).2.bag = s.bag ∧
    (resolveBegin key s).2.cache.getLast? = some (key, v) ∧
    (∀ k2, k2 ≠ key →
      lookupL (resolveBegin key s).2.cache k2 = lookupL s.cache k2) := by
  have hres : resolveBegin key s =
      (Attach.cached v, { s with cache := eraseKey s.cache key ++ [(key, v)] }) := by
    rw [resolveBegin, lruGet, h]
    simp [truthy]
  rw [hres]
  refine ⟨rfl, rfl, rfl, ?_, ?_⟩
  · simp
  · intro k2 hk2
    exact lookupL_eraseKey_append s.cache key k2 v hk2

/-- Claim C4, witness: a concrete cache holding a stored failure outcome
(modelled as a string tagged HTTP_ERROR) returns it from the cache with no
compute invocation. -/
theorem C4_cached_hit_witness :
    lookupL [(("k" : String), ("HTTP_ERROR" : String))] "k" = some "HTTP_ERROR" ∧
    (resolveBegin "k"
      (⟨[("k", "HTTP_ERROR")], [], 0, 0⟩ : DedupState String)).1 =
        Attach.cached "HTTP_ERROR" ∧
    (resolveBegin "k"
      (⟨[("k", "HTTP_ERROR")], [], 0, 0⟩ : DedupState String)).2.invocations = 0 := by
  have h : lookupL [(("k" : String), ("HTTP_ERROR" : String))] "k" =
      some "HTTP_ERROR" := by simp [lookupL]
  have hmain := C4_cached_hit String "k" "HTTP_ERROR"
    (⟨[("k", "HTTP_ERROR")], [], 0, 0⟩ : DedupState String) h
  exact ⟨h, hmain.1, hmain.2.1⟩

/-- Claim C3: when the key is not cached and a computation is already pending
(or not), two resolve calls in a row with no completion in between invoke the
underlying compute exactly once, both attach to the same promise, and hence
both callers receive the identical value when it settles. In the source the
check-and-register prefix runs without an await, so on the JS event loop the
two begins are atomic and this covers every interleaving of two concurrent
callers whose second begin happens while the first compute is pending. -/
theorem C3_inflight_dedup (V : Type) (key : String) (s0 : DedupState V)
    (hc : lookupL s0.cache key = none) (hb : lookupL s0.bag key = none) :
    (resolveBegin key s0).1 = Attach.promise s0.nextP ∧
    (resolveBegin key (resolveBegin key s0).2).1 = Attach.promise s0.nextP ∧
    (resolveBegin key (resolveBegin key s0).2).2.invocations =
      s0.invocations + 1 ∧
    (∀ valueOf : Nat → V,
      callerResult (resolveBegin key s0).1 valueOf =
        callerResult (resolveBegin key (resolveBegin key s0).2).1 valueOf) := by
  have h1 : resolveBegin key s0 =
      (Attach.promise s0.nextP,
       { s0 with
          bag := (key, s0.nextP) :: s0.bag,
          nextP := s0.nextP + 1,
          invocations := s0.invocations + 1 }) := by
    rw [resolveBegin, lruGet, hc, resolveMiss, hb]
  have h2 : resolveBegin key (resolveBegin key s0).2 =
      (Attach.promise s0.nextP, (resolveBegin key s0).2) := by
    rw [h1]
    rw [resolveBegin, lruGet]
    simp only [hc]
    rw [resolveMiss]
    simp [lookupL]
  refine ⟨by rw [h1], by rw [h2, h1], by rw [h2, h1], ?_⟩
  intro valueOf
  rw [h2, h1]

/-- Claim C3, witness: from an empty state, two back-to-back resolve calls
for the key k attach to the same fresh promise 0 and invoke compute once. -/
theorem C3_inflight_dedup_witness :
    lookupL ([] : List (String × Nat)) "k" = none ∧
    (resolveBegin "k" (⟨[], [], 0, 0⟩ : DedupState Nat)).1 =
      Attach.promise 0 ∧
    (resolveBegin "k"
      (resolveBegin "k" (⟨[], [], 0, 0⟩ : DedupState Nat)).2).2.invocations = 1 := by
  have hmain := C3_inflight_dedup Nat "k" (⟨[], [], 0, 0⟩ : DedupState Nat)
    (by simp [lookupL]) (by simp [lookupL])
  exact ⟨by simp [lookupL], hmain.1, hmain.2.2.1⟩

/-- Claim C5: the cache never exceeds the configured capacity after an
insertion; inserting capacity plus one distinct keys into an empty cache
evicts exactly the least recently used (first) key and no other, keeping the
rest in order; and after an lruGet refresh of the least recent of two
entries, an insertion that evicts removes the other entry, not the one just
read. -/
theorem C5_lru_eviction :
    (∀ (V : Type) (c : List (String × V)) (key : String) (v : V) (cap : Nat),
      c.length ≤ cap → (lruSet c key v cap).length ≤ cap) ∧
    (∀ (V : Type) (val : String → V) (cap : Nat) (ks : List String),
      ks.Nodup → ks.length = cap + 1 →
      keysOf (insertAll V val cap ks) = ks.drop 1) ∧
    (∀ (V : Type) (a b k1 : String) (va vb v1 : V), a ≠ b → k1 ≠ a → k1 ≠ b →
      lruSet (lruGet [(a, va), (b, vb)] a).2 k1 v1 2 = [(a, va), (k1, v1)]) := by
  refine ⟨?_, ?_, ?_⟩
  · intro V c key v cap hlen
    rw [lruSet]
    have hel : (eraseKey c key).length ≤ c.length := List.length_filter_le _ _
    by_cases hc : cap < (eraseKey c key ++ [(key, v)]).length
    · simp only [hc, if_true]
      simp at hc ⊢
      omega
    · simp only [hc, if_false]
      simp at hc ⊢
      omega
  · intro V val cap ks hnd hlen
    induction ks using List.reverseRecOn with
    | nil => simp at hlen
    | append_singleton ks k ih =>
        rw [List.nodup_append] at hnd
        have hk : k ∉ ks := by
          intro hmem
          exact hnd.2.2 hmem (List.mem_singleton_self k)
        have hlen1 : ks.length = cap := by simp at hlen; omega
        have hstep : insertAll V val cap (ks ++ [k]) =
            lruSet (insertAll V val cap ks) k (val k) cap := by
          rw [insertAll, List.foldl_append]; rfl
        rw [hstep, insertAll_fits V val cap ks hnd.1 (le_of_eq hlen1)]
        have hkk : k ∉ keysOf (ks.map (fun k => (k, val k))) := by
          simpa [keysOf, List.map_map, Function.comp] using hk
        rw [lruSet]
        simp only [eraseKey_of_not_mem hkk]
        rw [if_pos (by simp [hlen1])]
        rw [keysOf, List.map_tail]
        have hmm : List.map Prod.fst
            ((ks.map fun k => (k, val k)) ++ [(k, val k)]) = ks ++ [k] := by
          simp [List.map_map, Function.comp_def]
        rw [hmm, List.drop_one]
  · intro V a b k1 va vb v1 hab hk1a hk1b
    have hba : ¬ (b = a) := fun h => hab h.symm
    have hak1 : ¬ (a = k1) := fun h => hk1a h.symm
    have hbk1 : ¬ (b = k1) := fun h => hk1b h.symm
    simp [lruGet, lookupL, lruSet, eraseKey, hba, hak1, hbk1, List.filter]

/-- Claim C5, witness: with capacity 1, inserting the two distinct keys a, b
into the empty cache leaves exactly b; and the capacity bound holds at a
concrete insertion into a full cache of one entry. -/
theorem C5_lru_eviction_witness :
    ((["a", "b"] : List String).Nodup ∧
      keysOf (insertAll Nat (fun _ => 0) 1 ["a", "b"]) = ["b"]) ∧
    ([(("x" : String), (0 : Nat))].length ≤ 1 ∧
      (lruSet [(("x" : String), (0 : Nat))] "y" 1 1).length ≤ 1) := by
  constructor
  · refine ⟨by decide, ?_⟩
    exact C5_lru_eviction.2.1 Nat (fun _ => 0) 1 ["a", "b"] (by decide) (by decide)
  · refine ⟨by simp, ?_⟩
    exact C5_lru_eviction.1 Nat [("x", 0)] "y" 1 1 (by simp)

/-! ## The candidate time generators

The for-loop for (m = startOff; m <= endOff; m += step) over integer minute
offsets. The source loop does not terminate for step = 0; every call site
passes a positive step (Math.max(1, ...) or the widened effective step), and
the guard 1 <= step below makes the function total without changing any
reachable behaviour. -/

def offsetsLoop (m endOff : Int) (step : Nat) : List Int :=
  if _h : 1 ≤ step ∧ m ≤ endOff then
    m :: offsetsLoop (m + step) endOff step
  else []
termination_by (endOff + 1 - m).toNat
decreasing_by
  omega

/-- Start offset of the window: arrive mode sweeps [-window, 0], depart mode
sweeps [0, window] (shared by all variants). -/
def startOffOf (mode : Mode) (windowMin : Nat) : Int :=
  match mode with
  | .arrive => -(windowMin : Int)
  | .depart => 0

def endOffOf (mode : Mode) (windowMin : Nat) : Int :=
  match mode with
  | .arrive => 0
  | .depart => (windowMin : Int)

/-- The candidate instants of sweepBest in src/server.js lines 218-221 (and
of part_001 and part_002): plain step, no probe cap, no emptiness guard. -/
def candidatesList (baseTs : Int) (mode : Mode) (windowMin stepMin : Nat) :
    List Int :=
  (offsetsLoop (startOffOf mode windowMin) (endOffOf mode windowMin)
    stepMin).map (fun m => baseTs + m * 60)

/-- MAX_PROBES from part_000 line 577, commented there as at most 8 requests
per sweep. -/
def MAX_PROBES : Nat := 8

/-- The effective step of sweepTransit (part_000 line 578):
Math.max(stepMin or-else 10, Math.ceil((windowMin or-else 60) / MAX_PROBES)). -/
def effStep (windowMin stepMin : Nat) : Nat :=
  max (jsOrN stepMin 10) (natCeilDiv (jsOrN windowMin 60) MAX_PROBES)

/-- The candidate instants of sweepTransit (part_000 lines 575-585): the
offset loop with the widened effective step, then the guard that pushes the
anchor instant when the list would otherwise be empty. -/
def sweepCandidates (baseTs : Int) (mode : Mode) (windowMin stepMin : Nat) :
    List Int :=
  let cs := (offsetsLoop (startOffOf mode windowMin) (endOffOf mode windowMin)
    (effStep windowMin stepMin)).map (fun m => baseTs + m * 60)
  if cs.isEmpty then [baseTs] else cs

/-! ## A stable ascending sort with a JS comparator

Array.prototype.sort is required to be stable; an element is placed before
the first element it compares strictly below, and after equal ones. -/

def insertSorted {α : Type} (cmp : α → α → Int) (x : α) : List α → List α
  | [] => [x]
  | y :: ys => if cmp x y < 0 then x :: y :: ys else y :: insertSorted cmp x ys

def sortJS {α : Type} (cmp : α → α → Int) (l : List α) : List α :=
  l.foldl (fun acc x => insertSorted cmp x acc) []

theorem insertSorted_mem {α : Type} (cmp : α → α → Int) (x : α) :
    ∀ (l : List α) (y : α), y ∈ insertSorted cmp x l ↔ y = x ∨ y ∈ l := by
  intro l
  induction l with
  | nil => intro y; simp [insertSorted]
  | cons z zs ih =>
      intro y
      rw [insertSorted]
      by_cases hc : cmp x z < 0
      · simp [hc]
      · simp only [hc, if_false, List.mem_cons, ih y]
        tauto

/-- The first element of a list is a cmp-minimum of the list. -/
def headMin {α : Type} (cmp : α → α → Int) (l : List α) : Prop :=
  ∀ r, l.head? = some r → ∀ y ∈ l, cmp r y ≤ 0

theorem insertSorted_headMin {α : Type} (cmp : α → α → Int)
    (hrefl : ∀ a, cmp a a ≤ 0)
    (htrans : ∀ a b c, cmp a b ≤ 0 → cmp b c ≤ 0 → cmp a c ≤ 0)
    (hneg : ∀ a b, ¬ cmp a b < 0 → cmp b a ≤ 0)
    (x : α) (l : List α) (hl : headMin cmp l) :
    headMin cmp (insertSorted cmp x l) := by
  cases l with
  | nil =>
      intro r hr y hy
      simp [insertSorted] at hr hy
      subst hr; subst hy; exact hrefl _
  | cons h t =>
      intro r hr y hy
      rw [insertSorted] at hr hy
      by_cases hc : cmp x h < 0
      · simp only [hc, if_true, List.head?_cons, Option.some.injEq] at hr
        subst hr
        simp only [hc, if_true, List.mem_cons] at hy
        rcases hy with hy | hy | hy
        · subst hy; exact hrefl _
        · subst hy; exact le_of_lt hc
        · exact htrans _ h y (le_of_lt hc) (hl h rfl y (List.mem_cons_of_mem h hy))
      · simp only [hc, if_false, List.head?_cons, Option.some.injEq] at hr
        subst hr
        simp only [hc, if_false, List.mem_cons] at hy
        rcases hy with hy | hy
        · subst hy; exact hrefl _
        · rcases (insertSorted_mem cmp x t y).mp hy with hy | hy
          · subst hy; exact hneg _ _ hc
          · exact hl _ rfl y (List.mem_cons_of_mem _ hy)

theorem sortJS_facts {α : Type} (cmp : α → α → Int)
    (hrefl : ∀ a, cmp a a ≤ 0)
    (htrans : ∀ a b c, cmp a b ≤ 0 → cmp b c ≤ 0 → cmp a c ≤ 0)
    (hneg : ∀ a b, ¬ cmp a b < 0 → cmp b a ≤ 0) :
    ∀ (l acc : List α), headMin cmp acc →
      (headMin cmp (l.foldl (fun acc x => insertSorted cmp x acc) acc) ∧
       (∀ y, (y ∈ acc ∨ y ∈ l) →
          y ∈ l.foldl (fun acc x => insertSorted cmp x acc) acc) ∧
       (l.foldl (fun acc x => insertSorted cmp x acc) acc).length =
         acc.length + l.length) := by
  intro l
  induction l with
  | nil =>
      intro acc hacc
      refine ⟨hacc, ?_, by simp⟩
      intro y hy
      simpa using hy
  | cons x xs ih =>
      intro acc hacc
      have hstep := ih (insertSorted cmp x acc)
        (insertSorted_headMin cmp hrefl htrans hneg x acc hacc)
      refine ⟨hstep.1, ?_, ?_⟩
      · intro y hy
        rcases hy with hy | hy
        · exact hstep.2.1 y (Or.inl ((insertSorted_mem cmp x acc y).mpr (Or.inr hy)))
        · rcases List.mem_cons.mp hy with hy | hy
          · exact hstep.2.1 y (Or.inl ((insertSorted_mem cmp x acc y).mpr (Or.inl hy)))
          · exact hstep.2.1 y (Or.inr hy)
      · have hlen : (insertSorted cmp x acc).length = acc.length + 1 := by
          clear hstep hacc ih
          induction acc with
          | nil => simp [insertSorted]
          | cons z zs ihz =>
              rw [insertSorted]
              by_cases hc : cmp x z < 0
              · simp [hc]
              · simp only [hc, if_false, List.length_cons, ihz]
        rw [List.foldl_cons, hstep.2.2, hlen]
        simp [Nat.add_assoc, Nat.add_comm 1]

theorem sortJS_mem_rev {α : Type} (cmp : α → α → Int) :
    ∀ (l acc : List α) (y : α),
      y ∈ l.foldl (fun acc x => insertSorted cmp x acc) acc →
      y ∈ acc ∨ y ∈ l := by
  intro l
  induction l with
  | nil => intro acc y hy; exact Or.inl (by simpa using hy)
  | cons x xs ih =>
      intro acc y hy
      rcases ih (insertSorted cmp x acc) y hy with hy | hy
      · rcases (insertSorted_mem cmp x acc y).mp hy with hy | hy
        · exact Or.inr (hy ▸ List.mem_cons_self x xs)
        · exact Or.inl hy
      · exact Or.inr (List.mem_cons_of_mem x hy)

theorem sortJS_head_min {α : Type} (cmp : α → α → Int)
    (hrefl : ∀ a, cmp a a ≤ 0)
    (htrans : ∀ a b c, cmp a b ≤ 0 → cmp b c ≤ 0 → cmp a c ≤ 0)
    (hneg : ∀ a b, ¬ cmp a b < 0 → cmp b a ≤ 0)
    (l : List α) (hne : l ≠ []) :
    ∃ r, (sortJS cmp l).head? = some r ∧ r ∈ l ∧ ∀ x ∈ l, cmp r x ≤ 0 := by
  have hfacts := sortJS_facts cmp hrefl htrans hneg l []
    (by intro r hr; simp at hr)
  rw [sortJS]
  have hlen : (l.foldl (fun acc x => insertSorted cmp x acc) []).length =
      l.length := by simpa using hfacts.2.2
  have hmem : ∀ y ∈ l, y ∈ l.foldl (fun acc x => insertSorted cmp x acc) [] := by
    intro y hy
    exact hfacts.2.1 y (Or.inr hy)
  have hmemrev : ∀ y ∈ l.foldl (fun acc x => insertSorted cmp x acc) [], y ∈ l := by
    intro y hy
    rcases sortJS_mem_rev cmp l [] y hy with hy | hy
    · simp at hy
    · exact hy
  cases hsort : l.foldl (fun acc x => insertSorted cmp x acc) [] with
  | nil =>
      exfalso
      rw [hsort] at hlen
      exact hne (List.length_eq_zero.mp hlen.symm)
  | cons r rest =>
      refine ⟨r, rfl, ?_, ?_⟩
      · exact hmemrev r (by rw [hsort]; exact List.mem_cons_self r rest)
      · intro x hx
        have hmin := hfacts.1
        rw [hsort] at hmin
        have hxs : x ∈ r :: rest := by rw [← hsort]; exact hmem x hx
        exact hmin r rfl x hxs

/-! ## The Google/DB sweep orchestrator (src/server.js)

A normalized route of googleTransitOnce or trJourneyOnce: duration in
seconds, transfer count, and walk minutes. The source reads these three
number fields in the comparator better (lines 230-234); the or-else-0
defaults there are identities because both adapters always set the fields. -/

structure RouteG where
  duration : Int
  transfers : Int
  walk : Int
deriving DecidableEq

/-- The outcome of one probe (once in sweepBest): a normalized OK route, or
a per-candidate error status such as HTTP_ERROR or ZERO_RESULTS with an
optional code. -/
inductive ProbeResult where
  | ok (r : RouteG)
  | err (status : String) (code : Option Int)
deriving DecidableEq

/-- The comparator better of sweepBest (src/server.js lines 230-234):
duration difference, or-else transfer difference, or-else walk difference. -/
def better (a b : RouteG) : Int :=
  jsOrI (a.duration - b.duration)
    (jsOrI (a.transfers - b.transfers) (a.walk - b.walk))

/-- better applied to results entries, which carry the probed instant. -/
def betterP (a b : RouteG × Int) : Int := better a.1 b.1

/-- One entry of the debug trace: {ts, status, code, m}. -/
structure TraceEntry where
  ts : Int
  status : String
  code : Option Int
  m : Mode
deriving DecidableEq

def probeStatus : ProbeResult → String
  | .ok _ => "OK"
  | .err st _ => st

def probeCode : ProbeResult → Option Int
  | .ok _ => none
  | .err _ c => c

/-- The traced record of one probe. -/
def traceOf (probe : Int → Mode → ProbeResult) (ts : Int) (m : Mode) :
    TraceEntry :=
  ⟨ts, probeStatus (probe ts m), probeCode (probe ts m), m⟩

/-- The accepted results of probing the candidates in one mode: the OK
routes with their instants, in candidate order. -/
def acceptedOf (probe : Int → Mode → ProbeResult) (cands : List Int)
    (m : Mode) : List (RouteG × Int) :=
  cands.filterMap (fun ts =>
    match probe ts m with
    | .ok r => some (r, ts)
    | .err _ _ => none)

/-- One pass of sweepBest over the candidates (src/server.js lines 236-240
and 248-252): sequential awaited probes, each may throw (Except.error); an
OK status appends the route with its ts to results, and with debug on, every
probe appends a trace entry. The trace array is shared between the two
passes, so it is threaded through the accumulator. -/
def probeLoop (probeE : Int → Mode → Except String ProbeResult) (m : Mode)
    (debug : Bool) :
    List Int → List (RouteG × Int) × List TraceEntry →
    Except String (List (RouteG × Int) × List TraceEntry)
  | [], acc => Except.ok acc
  | ts :: rest, acc =>
      match probeE ts m with
      | .error e => .error e
      | .ok r =>
          probeLoop probeE m debug rest
            ((match r with
              | .ok route => acc.1 ++ [(route, ts)]
              | .err _ _ => acc.1),
             if debug then acc.2 ++ [⟨ts, probeStatus r, probeCode r, m⟩]
             else acc.2)

/-- A SweepResult of sweepBest: status, formatted endpoints on success, best
route with its chosen instant, the fallback note, and the probe trace. -/
structure SweepOut where
  status : String
  origin : Option String
  destination : Option String
  best : Option (RouteG × Int)
  note : Option String
  trace : List TraceEntry
deriving DecidableEq

/-- The candidate passes and selection of sweepBest (src/server.js lines
218-257), after geocoding succeeded: probe every candidate in the requested
mode; if any route was accepted, sort with better (stable) and return the
first; otherwise run exactly one fallback pass over the same candidates in
the opposite mode, annotated fallback_to_opposite_mode; ZERO_RESULTS only
when the fallback pass is also empty. -/
def sweepBestRun (probeE : Int → Mode → Except String ProbeResult)
    (cands : List Int) (mode : Mode) (debug : Bool)
    (originFmt destFmt : String) : Except String SweepOut :=
  match probeLoop probeE mode debug cands ([], []) with
  | .error e => .error e
  | .ok (results, trace1) =>
      if results.isEmpty then
        match probeLoop probeE (oppMode mode) debug cands ([], trace1) with
        | .error e => .error e
        | .ok (results2, trace2) =>
            if results2.isEmpty then
              Except.ok
                { status := "ZERO_RESULTS", origin := none, destination := none,
                  best := none, note := none, trace := trace2 }
            else
              Except.ok
                { status := "OK", origin := some originFmt,
                  destination := some destFmt,
                  best := (sortJS betterP results2).head?,
                  note := some "fallback_to_opposite_mode", trace := trace2 }
      else
        Except.ok
          { status := "OK", origin := some originFmt,
            destination := some destFmt,
            best := (sortJS betterP results).head?,
            note := none, trace := trace1 }

/-- The outcome of geocodeToPlaceId once the fetch resolved: the geocoder
answer is a function of the response body (the source does not check r.ok
and reads the parsed JSON directly). -/
inductive GeoOutcome where
  | ok (place_id formatted : String)
  | fail (status : String)
deriving DecidableEq

def isGeoOk : GeoOutcome → Bool
  | .ok _ _ => true
  | .fail _ => false

/-- geocodeToPlaceId (src/server.js lines 53-65): with no GOOGLE_API_KEY it
throws Error GOOGLE_API_KEY missing before any fetch; otherwise it returns
the outcome determined by the upstream response. -/
def geocodeToPlaceId (hasKey : Bool) (fetched : GeoOutcome) :
    Except String GeoOutcome :=
  if hasKey then Except.ok fetched else Except.error "GOOGLE_API_KEY missing"

/-- googleTransitOnce's throw guard (src/server.js line 68): each probe also
throws when the key is missing; with the key present the probe outcome is
the oracle's value (the fetch is assumed to resolve). -/
def googleProbeE (hasKey : Bool) (probe : Int → Mode → ProbeResult) :
    Int → Mode → Except String ProbeResult :=
  fun ts m =>
    if hasKey then Except.ok (probe ts m)
    else Except.error "GOOGLE_API_KEY missing"

/-- sweepBest (src/server.js lines 204-257), Google provider branch: geocode
both endpoints (each may throw), return GEOCODE_FAIL if either failed,
otherwise build the candidates and run the two-pass sweep. geo maps a query
text to its geocoder outcome, probe maps an instant and mode to its probe
outcome; both are fixed oracles for one sweep. -/
def sweepBestG (hasKey : Bool) (geo : String → GeoOutcome)
    (probe : Int → Mode → ProbeResult) (originText destText : String)
    (baseTs : Int) (windowMin stepMin : Nat) (mode : Mode) (debug : Bool) :
    Except String SweepOut :=
  match geocodeToPlaceId hasKey (geo originText) with
  | .error e => .error e
  | .ok o =>
      match geocodeToPlaceId hasKey (geo destText) with
      | .error e => .error e
      | .ok d =>
          match o, d with
          | .ok _ oFmt, .ok _ dFmt =>
              sweepBestRun (googleProbeE hasKey probe)
                (candidatesList baseTs mode windowMin stepMin) mode debug
                oFmt dFmt
          | _, _ =>
              Except.ok
                { status := "GEOCODE_FAIL", origin := none,
                  destination := none, best := none, note := none,
                  trace := [] }

/-! ## Helper lemmas for the server.js sweep -/

theorem better_refl (a : RouteG) : better a a ≤ 0 := by
  simp [better, jsOrI]

theorem better_trans (a b c : RouteG) (h1 : better a b ≤ 0)
    (h2 : better b c ≤ 0) : better a c ≤ 0 := by
  simp only [better, jsOrI] at h1 h2 ⊢
  split_ifs at h1 h2 ⊢ <;> omega

theorem better_neg (a b : RouteG) (h : ¬ better a b < 0) : better b a ≤ 0 := by
  simp only [better, jsOrI] at h ⊢
  split_ifs at h ⊢ <;> omega

theorem betterP_refl (a : RouteG × Int) : betterP a a ≤ 0 := better_refl a.1

theorem betterP_trans (a b c : RouteG × Int) (h1 : betterP a b ≤ 0)
    (h2 : betterP b c ≤ 0) : betterP a c ≤ 0 := better_trans a.1 b.1 c.1 h1 h2

theorem betterP_neg (a b : RouteG × Int) (h : ¬ betterP a b < 0) :
    betterP b a ≤ 0 := better_neg a.1 b.1 h

/-- probeLoop with a key present never throws: it computes the filtered
accepted results and the per-probe trace. -/
theorem probeLoop_pure (probe : Int → Mode → ProbeResult) (m : Mode)
    (debug : Bool) :
    ∀ (cands : List Int) (acc : List (RouteG × Int) × List TraceEntry),
      probeLoop (googleProbeE true probe) m debug cands acc =
        Except.ok (acc.1 ++ acceptedOf probe cands m,
          acc.2 ++ (if debug then cands.map (fun ts => traceOf probe ts m)
            else [])) := by
  intro cands
  induction cands with
  | nil => intro acc; simp [probeLoop, acceptedOf]
  | cons ts rest ih =>
      intro acc
      rw [probeLoop, googleProbeE]
      simp only [if_true]
      rw [ih]
      cases hp : probe ts m with
      | ok route =>
          simp only [hp, acceptedOf, List.filterMap_cons]
          cases debug <;>
            simp [acceptedOf, traceOf, hp, List.append_assoc]
      | err st c =>
          simp only [hp, acceptedOf, List.filterMap_cons]
          cases debug <;>
            simp [acceptedOf, traceOf, hp, List.append_assoc]

theorem geocodeToPlaceId_ok (x : GeoOutcome) :
    geocodeToPlaceId true x = Except.ok x := rfl

/-- The trace of one full pass over the candidates in mode m. -/
def passTrace (probe : Int → Mode → ProbeResult) (cands : List Int)
    (m : Mode) (debug : Bool) : List TraceEntry :=
  if debug then cands.map (fun ts => traceOf probe ts m) else []

theorem sweepBestRun_pure_hit (probe : Int → Mode → ProbeResult)
    (cands : List Int) (mode : Mode) (debug : Bool) (oF dF : String)
    (h1 : acceptedOf probe cands mode ≠ []) :
    sweepBestRun (googleProbeE true probe) cands mode debug oF dF =
      Except.ok
        { status := "OK", origin := some oF, destination := some dF,
          best := (sortJS betterP (acceptedOf probe cands mode)).head?,
          note := none, trace := passTrace probe cands mode debug } := by
  rw [sweepBestRun, probeLoop_pure probe mode debug cands ([], [])]
  dsimp only
  rw [List.nil_append, List.nil_append,
    if_neg (by simpa [List.isEmpty_iff] using h1)]
  rfl

theorem sweepBestRun_pure_fallback (probe : Int → Mode → ProbeResult)
    (cands : List Int) (mode : Mode) (debug : Bool) (oF dF : String)
    (h1 : acceptedOf probe cands mode = [])
    (h2 : acceptedOf probe cands (oppMode mode) ≠ []) :
    sweepBestRun (googleProbeE true probe) cands mode debug oF dF =
      Except.ok
        { status := "OK", origin := some oF, destination := some dF,
          best := (sortJS betterP (acceptedOf probe cands (oppMode mode))).head?,
          note := some "fallback_to_opposite_mode",
          trace := passTrace probe cands mode debug ++
            passTrace probe cands (oppMode mode) debug } := by
  rw [sweepBestRun, probeLoop_pure probe mode debug cands ([], [])]
  dsimp only
  rw [List.nil_append, List.nil_append, h1,
    if_pos (List.isEmpty_nil),
    probeLoop_pure probe (oppMode mode) debug cands _]
  dsimp only
  rw [List.nil_append,
    if_neg (by simpa [List.isEmpty_iff] using h2)]
  rfl

theorem sweepBestRun_pure_zero (probe : Int → Mode → ProbeResult)
    (cands : List Int) (mode : Mode) (debug : Bool) (oF dF : String)
    (h1 : acceptedOf probe cands mode = [])
    (h2 : acceptedOf probe cands (oppMode mode) = []) :
    sweepBestRun (googleProbeE true probe) cands mode debug oF dF =
      Except.ok
        { status := "ZERO_RESULTS", origin := none, destination := none,
          best := none, note := none,
          trace := passTrace probe cands mode debug ++
            passTrace probe cands (oppMode mode) debug } := by
  rw [sweepBestRun, probeLoop_pure probe mode debug cands ([], [])]
  dsimp only
  rw [List.nil_append, List.nil_append, h1,
    if_pos (List.isEmpty_nil),
    probeLoop_pure probe (oppMode mode) debug cands _]
  dsimp only
  rw [List.nil_append, h2, if_pos (List.isEmpty_nil)]
  rfl

/-! ## Claim theorems for the server.js sweep -/

/-- Claim C1: false on the code. With windowMin = 8 and stepMin = 1 the
effective step is max(1, ceil(8 / 8)) = 1 and the depart-mode offsets are
0, 1, ..., 8: nine candidates, exceeding the MAX_PROBES cap of 8 that the
claim (and the comment at part_000 line 577) states. -/
theorem C1_cap_exceeded :
    (sweepCandidates 0 Mode.depart 8 1).length = 9 ∧ MAX_PROBES = 8 := by
  constructor
  · simp [sweepCandidates, effStep, jsOrN, natCeilDiv, MAX_PROBES,
      startOffOf, endOffOf, offsetsLoop]
  · rfl

/-- Claim C2: the selection of sweepBest. The comparator better orders by
ascending duration, ties by ascending transfer count, further ties by
ascending walk; sorting the accepted results with it (stably) and taking the
first yields an element of the list minimal under that ordering; on the
concrete durations [300, 200, 200] with transfer counts [1, 2, 1] the
selected best has duration 200 and transfer count 1; and the empty list
selects nothing. -/
theorem C2_selection :
    (∀ a b : RouteG, better a b ≤ 0 ↔
      (a.duration < b.duration ∨ (a.duration = b.duration ∧
        (a.transfers < b.transfers ∨ (a.transfers = b.transfers ∧
          a.walk ≤ b.walk))))) ∧
    (∀ l : List (RouteG × Int), l ≠ [] →
      ∃ r, (sortJS betterP l).head? = some r ∧ r ∈ l ∧
        ∀ x ∈ l, betterP r x ≤ 0) ∧
    ((sortJS betterP
        [(⟨300, 1, 0⟩, 0), (⟨200, 2, 0⟩, 1), (⟨200, 1, 0⟩, 2)]).head? =
      some (⟨200, 1, 0⟩, 2)) ∧
    ((sortJS betterP ([] : List (RouteG × Int))).head? = none) := by
  refine ⟨?_, ?_, by decide, rfl⟩
  · intro a b
    simp only [better, jsOrI]
    split_ifs <;> omega
  · intro l hne
    exact sortJS_head_min betterP betterP_refl betterP_trans betterP_neg l hne

/-- Claim C7: when no candidate in the requested mode yields an accepted
route, sweepBest runs exactly one fallback pass over the same candidate
window in the opposite mode (the trace records each candidate once per
mode, requested pass first), annotates a fallback result with
fallback_to_opposite_mode, and reports the empty-sweep failure ZERO_RESULTS
exactly when the fallback pass also yields no accepted route. -/
theorem C7_fallback (probe : Int → Mode → ProbeResult) (cands : List Int)
    (mode : Mode) (oF dF : String)
    (h : acceptedOf probe cands mode = []) :
    ∃ out, sweepBestRun (googleProbeE true probe) cands mode true oF dF =
        Except.ok out ∧
      out.trace = cands.map (fun ts => traceOf probe ts mode) ++
        cands.map (fun ts => traceOf probe ts (oppMode mode)) ∧
      (acceptedOf probe cands (oppMode mode) = [] →
        out.status = "ZERO_RESULTS" ∧ out.best = none ∧ out.note = none) ∧
      (acceptedOf probe cands (oppMode mode) ≠ [] →
        out.status = "OK" ∧ out.note = some "fallback_to_opposite_mode" ∧
        out.best =
          (sortJS betterP (acceptedOf probe cands (oppMode mode))).head?) := by
  by_cases h2 : acceptedOf probe cands (oppMode mode) = []
  · rw [sweepBestRun_pure_zero probe cands mode true oF dF h h2]
    exact ⟨_, rfl, rfl, fun _ => ⟨rfl, rfl, rfl⟩, fun hcon => absurd h2 hcon⟩
  · rw [sweepBestRun_pure_fallback probe cands mode true oF dF h h2]
    exact ⟨_, rfl, rfl, fun hcon => absurd hcon h2, fun _ => ⟨rfl, rfl, rfl⟩⟩

/-- Claim C7, witness: one candidate at instant 5, arrive-mode probes all
ZERO_RESULTS, depart-mode probes accepted: the fallback pass finds the
route. -/
theorem C7_fallback_witness :
    acceptedOf
      (fun _ m => match m with
        | Mode.depart => ProbeResult.ok ⟨100, 0, 0⟩
        | Mode.arrive => ProbeResult.err "ZERO_RESULTS" none)
      [5] Mode.arrive = [] ∧
    ∃ out, sweepBestRun
        (googleProbeE true
          (fun _ m => match m with
            | Mode.depart => ProbeResult.ok ⟨100, 0, 0⟩
            | Mode.arrive => ProbeResult.err "ZERO_RESULTS" none))
        [5] Mode.arrive true "o" "d" = Except.ok out ∧
      out.trace = [5].map (fun ts => traceOf
        (fun _ m => match m with
          | Mode.depart => ProbeResult.ok ⟨100, 0, 0⟩
          | Mode.arrive => ProbeResult.err "ZERO_RESULTS" none) ts Mode.arrive) ++
        [5].map (fun ts => traceOf
          (fun _ m => match m with
            | Mode.depart => ProbeResult.ok ⟨100, 0, 0⟩
            | Mode.arrive => ProbeResult.err "ZERO_RESULTS" none) ts
          (oppMode Mode.arrive)) ∧
      (acceptedOf
        (fun _ m => match m with
          | Mode.depart => ProbeResult.ok ⟨100, 0, 0⟩
          | Mode.arrive => ProbeResult.err "ZERO_RESULTS" none)
        [5] (oppMode Mode.arrive) = [] →
        out.status = "ZERO_RESULTS" ∧ out.best = none ∧ out.note = none) ∧
      (acceptedOf
        (fun _ m => match m with
          | Mode.depart => ProbeResult.ok ⟨100, 0, 0⟩
          | Mode.arrive => ProbeResult.err "ZERO_RESULTS" none)
        [5] (oppMode Mode.arrive) ≠ [] →
        out.status = "OK" ∧ out.note = some "fallback_to_opposite_mode" ∧
        out.best = (sortJS betterP (acceptedOf
          (fun _ m => match m with
            | Mode.depart => ProbeResult.ok ⟨100, 0, 0⟩
            | Mode.arrive => ProbeResult.err "ZERO_RESULTS" none)
          [5] (oppMode Mode.arrive))).head?) :=
  ⟨rfl, C7_fallback _ [5] Mode.arrive "o" "d" rfl⟩

/-- Claim C8, counterexample to the claim as stated: with GOOGLE_API_KEY
unset, sweepBest does not return a SweepResult at all; geocodeToPlaceId
throws Error GOOGLE_API_KEY missing and the rejection propagates to the
caller. -/
theorem C8_counterexample :
    sweepBestG false (fun _ => GeoOutcome.fail "ZERO_RESULTS")
      (fun _ _ => ProbeResult.err "ZERO_RESULTS" none)
      "a" "b" 0 60 10 Mode.depart false =
    Except.error "GOOGLE_API_KEY missing" := rfl

/-- Claim C8, amended: provided its collaborators do not throw (the API key
is configured and the fetches resolve), sweepBest always returns a
SweepResult whose status field encodes the failure class: GEOCODE_FAIL when
either endpoint fails to geocode, otherwise OK or ZERO_RESULTS; per-candidate
errors never escape the probe passes. -/
theorem C8_no_throw (geo : String → GeoOutcome)
    (probe : Int → Mode → ProbeResult) (originText destText : String)
    (baseTs : Int) (windowMin stepMin : Nat) (mode : Mode) (debug : Bool) :
    ∃ out, sweepBestG true geo probe originText destText baseTs windowMin
        stepMin mode debug = Except.ok out ∧
      (out.status = "GEOCODE_FAIL" ∨ out.status = "OK" ∨
        out.status = "ZERO_RESULTS") ∧
      ((isGeoOk (geo originText) = false ∨ isGeoOk (geo destText) = false) →
        out.status = "GEOCODE_FAIL") := by
  rw [sweepBestG, geocodeToPlaceId_ok, geocodeToPlaceId_ok]
  cases ho : geo originText with
  | fail st =>
      exact ⟨_, rfl, Or.inl rfl, fun _ => rfl⟩
  | ok pid oFmt =>
      cases hd : geo destText with
      | fail st =>
          exact ⟨_, rfl, Or.inl rfl, fun _ => rfl⟩
      | ok pid2 dFmt =>
          have hgeo : (isGeoOk (GeoOutcome.ok pid oFmt) = false ∨
              isGeoOk (GeoOutcome.ok pid2 dFmt) = false) →
              False := by
            intro hfail
            rcases hfail with hfail | hfail <;> simp [isGeoOk] at hfail
          by_cases h1 : acceptedOf probe
              (candidatesList baseTs mode windowMin stepMin) mode = []
          · by_cases h2 : acceptedOf probe
                (candidatesList baseTs mode windowMin stepMin)
                (oppMode mode) = []
            · exact ⟨_,
                sweepBestRun_pure_zero probe _ mode debug oFmt dFmt h1 h2,
                Or.inr (Or.inr rfl), fun hfail => absurd hfail hgeo⟩
            · exact ⟨_,
                sweepBestRun_pure_fallback probe _ mode debug oFmt dFmt h1 h2,
                Or.inr (Or.inl rfl), fun hfail => absurd hfail hgeo⟩
          · exact ⟨_,
              sweepBestRun_pure_hit probe _ mode debug oFmt dFmt h1,
              Or.inr (Or.inl rfl), fun hfail => absurd hfail hgeo⟩

/-! ## The HERE transit adapter of part_000 (lines 483-600)

Upstream response model: a non-success HTTP status, or the parsed body's
routes array, each route reduced to its sections (the only field read). A
section carries the transport object when present (with the string fields
the source reads, absent modelled as the empty string, which the or-else
chains and set-membership tests cannot distinguish from undefined), the
summary duration and length when they are finite numbers, the parsed
departure and arrival times in epoch milliseconds, and the place names. -/

def NON_D_TICKET_PRODUCTS : List String :=
  ["highSpeedTrain", "intercityTrain", "longDistanceTrain", "internationalTrain"]

structure Transport where
  productName : String
  mode : String
  category : String
  name : String
  shortName : String
  operator : String
deriving DecidableEq

structure RouteSection where
  transport : Option Transport
  summaryDuration : Option Int
  summaryLength : Option Int
  depTimeMs : Option Int
  arrTimeMs : Option Int
  depPlace : String
  arrPlace : String
deriving DecidableEq

inductive FetchResp where
  | httpError (code : Int)
  | routes (rs : List (List RouteSection))
deriving DecidableEq

/-- A string field of the optional transport object; undefined becomes the
empty string. -/
def tField (s : RouteSection) (f : Transport → String) : String :=
  (s.transport.map f).getD ""

/-- cat of part_000 line 508: (s.transport category or-else mode or-else
empty).trim(). -/
def catOf (s : RouteSection) : String :=
  jsTrim (jsOrS (tField s (fun t => t.category)) (tField s (fun t => t.mode)))

/-- prod of part_000 line 507: product name or-else mode or-else category. -/
def prodOf (s : RouteSection) : String :=
  jsOrS (tField s (fun t => t.productName))
    (jsOrS (tField s (fun t => t.mode)) (tField s (fun t => t.category)))

/-- The loop summing the finite summary durations (part_000 lines 513-514). -/
def sumDurations (sections : List RouteSection) : Int :=
  sections.foldl (fun acc s =>
    match s.summaryDuration with
    | some d => acc + d
    | none => acc) 0

/-- The earliest truthy departure time in milliseconds (lines 516-520). -/
def firstDepOf (sections : List RouteSection) : Option Int :=
  sections.foldl (fun fd s =>
    match s.depTimeMs with
    | some d =>
        if d ≠ 0 then
          match fd with
          | none => some d
          | some f => if d < f then some d else some f
        else fd
    | none => fd) none

/-- The latest truthy arrival time in milliseconds (lines 517-521). -/
def lastArrOf (sections : List RouteSection) : Option Int :=
  sections.foldl (fun la s =>
    match s.arrTimeMs with
    | some a =>
        if a ≠ 0 then
          match la with
          | none => some a
          | some l => if l < a then some a else some l
        else la
    | none => la) none

/-- Math.round(x / 1000) for an integer x of milliseconds: floor of
x / 1000 + one half, exactly. -/
def jsRoundDiv1000 (x : Int) : Int := Int.fdiv (x + 500) 1000

/-- A normalized leg in the details array of part_000 lines 532-552. -/
inductive Detail0 where
  | transit (line agency fromName toName : String) (dep arr : Option Int)
      (product : String)
  | walk (duration_sec : Option Int) (distance_m : Option Int)
deriving DecidableEq

/-- The walk duration fallback of line 549: summary duration or-else, when
both endpoint times are truthy, max(0, Math.round((arr - dep) / 1000)) over
the epoch-second endpoints, or-else null. -/
def walkDuration (s : RouteSection) : Option Int :=
  let dep := s.depTimeMs.map (fun ms => Int.fdiv ms 1000)
  let arr := s.arrTimeMs.map (fun ms => Int.fdiv ms 1000)
  let fb : Option Int :=
    match dep, arr with
    | some d, some a =>
        if d ≠ 0 ∧ a ≠ 0 then some (max 0 (jsRoundDiv1000 (a - d))) else none
    | _, _ => none
  match s.summaryDuration with
  | some x => if x = 0 then fb else some x
  | none => fb

/-- One section's detail entry (lines 532-552): any section with a transport
object becomes a TRANSIT entry whose product is category or-else mode
(untrimmed); a section without one becomes a WALK entry. -/
def detailOf (s : RouteSection) : Detail0 :=
  match s.transport with
  | some t =>
      Detail0.transit (jsOrS t.name (jsOrS t.shortName t.mode)) t.operator
        s.depPlace s.arrPlace
        (s.depTimeMs.map (fun ms => Int.fdiv ms 1000))
        (s.arrTimeMs.map (fun ms => Int.fdiv ms 1000))
        (jsOrS t.category t.mode)
  | none => Detail0.walk (walkDuration s) s.summaryLength

/-- The normalized OK payload of hereTransitOnce. -/
structure TransitOk where
  durationSec : Int
  depart : Option Int
  arrive : Option Int
  details : List Detail0
deriving DecidableEq

inductive TransitOutcome where
  | ok (r : TransitOk)
  | err (status : String) (code : Option Int)
deriving DecidableEq

/-- The section loop's violation flag (part_000 lines 506-511): some section
has its category or product in the excluded set. The source sets it only
under the dticket guard, so the final check dticket and-also violatesDTicket
equals dticket and-also this flag. -/
def violatesOf (sections : List RouteSection) : Bool :=
  sections.any (fun s =>
    NON_D_TICKET_PRODUCTS.contains (catOf s) ||
    NON_D_TICKET_PRODUCTS.contains (prodOf s))

/-- The route duration (lines 513-526): the sum of the finite summary
durations, replaced, when zero or negative and both endpoint times are
truthy with arrival after departure, by the rounded millisecond span. -/
def durationFixed (sections : List RouteSection) : Int :=
  match firstDepOf sections, lastArrOf sections with
  | some f, some a =>
      if sumDurations sections ≤ 0 ∧ f ≠ 0 ∧ a ≠ 0 ∧ f < a then
        jsRoundDiv1000 (a - f)
      else sumDurations sections
  | _, _ => sumDurations sections

/-- depart of line 557: the first departure in epoch seconds when truthy. -/
def departOf (sections : List RouteSection) : Option Int :=
  match firstDepOf sections with
  | some f => if f ≠ 0 then some (Int.fdiv f 1000) else none
  | none => none

/-- arrive of line 558. -/
def arriveOf (sections : List RouteSection) : Option Int :=
  match lastArrOf sections with
  | some a => if a ≠ 0 then some (Int.fdiv a 1000) else none
  | none => none

/-- hereTransitOnce (part_000 lines 483-561) after the fetch resolved: HTTP
failure and empty results classify as errors; with the dticket flag a route
any of whose sections has a category or product in NON_D_TICKET_PRODUCTS is
rejected; otherwise the duration is summed (falling back to the span from
first departure to last arrival when non-positive) and the details are
normalized. -/
def hereTransitOnce (resp : FetchResp) (dticket : Bool) : TransitOutcome :=
  match resp with
  | .httpError code => .err "HTTP_ERROR" (some code)
  | .routes rs =>
      match rs.head? with
      | none => .err "ZERO_RESULTS" none
      | some sections =>
          if sections.isEmpty then .err "ZERO_RESULTS" none
          else if dticket && violatesOf sections then
            .err "REJECTED_D_TICKET" none
          else
            .ok ⟨durationFixed sections, departOf sections,
              arriveOf sections, sections.map detailOf⟩

/-- The comparator of part_000 line 598: durationSec or-else 9e15,
ascending. -/
def cmpSweep (a b : TransitOk × Int) : Int :=
  jsOrI a.1.durationSec 9000000000000000 - jsOrI b.1.durationSec 9000000000000000

inductive SweepTOut where
  | zero
  | okBest (best : TransitOk × Int)
deriving DecidableEq

/-- sweepTransit (part_000 lines 575-600): probe each candidate instant (the
pool writes each worker result at its input index, so the filtered results
are the accepted routes in candidate order), sort stably by duration, and
take the first; ZERO_RESULTS when no probe was accepted, which is exactly
when the sorted list has no head. The cached resolver returns the value of
hereTransitOnce for the identical arguments (the cache key determines them),
so probing is modelled by hereTransitOnce over the upstream oracle. -/
def sweepTransit (upstream : Int → FetchResp) (baseTs : Int) (mode : Mode)
    (windowMin stepMin : Nat) (dticket : Bool) : SweepTOut :=
  let candidates := sweepCandidates baseTs mode windowMin stepMin
  let results := candidates.filterMap (fun ts =>
    match hereTransitOnce (upstream ts) dticket with
    | .ok r => some (r, ts)
    | .err _ _ => none)
  match (sortJS cmpSweep results).head? with
  | none => .zero
  | some b => .okBest b

/-- The product field of a TRANSIT detail entry. -/
def detailProduct : Detail0 → Option String
  | .transit _ _ _ _ _ _ p => some p
  | .walk _ _ => none

/-! ## Helper lemmas for the D-Ticket filter -/

theorem mem_nonDTicket_trim (p : String)
    (h : NON_D_TICKET_PRODUCTS.contains p = true) : jsTrim p = p := by
  have hmem : p ∈ NON_D_TICKET_PRODUCTS := by simpa using h
  fin_cases hmem <;> decide

/-- Inverting a successful hereTransitOnce: the details come from the first
route's sections, and with the dticket flag no section's category or product
is in the excluded set. -/
theorem hereTransitOnce_ok_inv (resp : FetchResp) (dticket : Bool)
    (r : TransitOk) (h : hereTransitOnce resp dticket = TransitOutcome.ok r) :
    ∃ sections : List RouteSection, r.details = sections.map detailOf ∧
      (dticket = true → ∀ s ∈ sections,
        (NON_D_TICKET_PRODUCTS.contains (catOf s) ||
         NON_D_TICKET_PRODUCTS.contains (prodOf s)) = false) := by
  cases resp with
  | httpError code => simp [hereTransitOnce] at h
  | routes rs =>
      cases rs with
      | nil => simp [hereTransitOnce] at h
      | cons sections rest =>
          rw [hereTransitOnce] at h
          simp only [List.head?_cons] at h
          by_cases hs : sections.isEmpty
          · rw [if_pos hs] at h; exact absurd h (by simp)
          · rw [if_neg hs] at h
            by_cases hv : (dticket && violatesOf sections) = true
            · rw [if_pos hv] at h; exact absurd h (by simp)
            · rw [if_neg hv] at h
              refine ⟨sections, ?_, ?_⟩
              · injection h with h2
                exact (congrArg TransitOk.details h2).symm
              · intro hdt s hsmem
                subst hdt
                simp only [Bool.true_and, violatesOf] at hv
                rw [Bool.not_eq_true, List.any_eq_false] at hv
                exact Bool.eq_false_iff.mpr (hv s hsmem)

/-! ## Claim theorem for the D-Ticket filter -/

/-- Claim C6: with the dticket policy flag set, the best route returned by
sweepTransit never contains a transit leg whose product category is in
NON_D_TICKET_PRODUCTS, whatever the upstream responses (in particular even
when such a route would have the shortest duration): any such route is
rejected before selection. -/
theorem C6_dticket_filter (upstream : Int → FetchResp) (baseTs : Int)
    (mode : Mode) (windowMin stepMin : Nat) (b : TransitOk × Int)
    (h : sweepTransit upstream baseTs mode windowMin stepMin true =
      SweepTOut.okBest b) :
    ∀ d ∈ b.1.details, ∀ p, detailProduct d = some p →
      NON_D_TICKET_PRODUCTS.contains p = false := by
  intro d hd p hp
  rw [sweepTransit] at h
  set cands := sweepCandidates baseTs mode windowMin stepMin with hcands
  set results := cands.filterMap (fun ts =>
    match hereTransitOnce (upstream ts) true with
    | .ok r => some (r, ts)
    | .err _ _ => none) with hres
  cases hhead : (sortJS cmpSweep results).head? with
  | none => rw [hhead] at h; exact absurd h (by simp)
  | some b2 =>
      rw [hhead] at h
      have hb2 : b2 = b := by
        have := h
        simp at this
        exact this
      subst hb2
      have hmem : b2 ∈ sortJS cmpSweep results := by
        have : (sortJS cmpSweep results).head? = some b2 := hhead
        cases hl : sortJS cmpSweep results with
        | nil => rw [hl] at this; simp at this
        | cons x xs =>
            rw [hl] at this
            simp at this
            rw [this]
            exact List.mem_cons_self b2 xs
      have hmemres : b2 ∈ results := by
        rcases sortJS_mem_rev cmpSweep results [] b2 (by
          rw [sortJS] at hmem; exact hmem) with hx | hx
        · simp at hx
        · exact hx
      rw [hres] at hmemres
      rcases List.mem_filterMap.mp hmemres with ⟨ts, _hts, hok⟩
      have hok2 : hereTransitOnce (upstream ts) true = TransitOutcome.ok b2.1 := by
        cases hcase : hereTransitOnce (upstream ts) true with
        | ok r =>
            rw [hcase] at hok
            simp only [Option.some.injEq] at hok
            subst hok
            rfl
        | err st c => rw [hcase] at hok; simp at hok
      rcases hereTransitOnce_ok_inv (upstream ts) true b2.1 hok2 with
        ⟨sections, hdet, hclean⟩
      rw [hdet] at hd
      rcases List.mem_map.mp hd with ⟨s, hsmem, hds⟩
      have hclean2 := hclean rfl s hsmem
      by_contra hcontra
      rw [Bool.not_eq_false] at hcontra
      rw [Bool.or_eq_false_iff] at hclean2
      cases hdt : s.transport with
      | none =>
          rw [← hds] at hp
          simp [detailOf, hdt, detailProduct] at hp
      | some t =>
          rw [← hds] at hp
          simp only [detailOf, hdt, detailProduct, Option.some.injEq] at hp
          have hcat : catOf s = jsTrim p := by
            simp [catOf, tField, hdt, hp]
          rw [mem_nonDTicket_trim p hcontra] at hcat
          rw [hcat] at hclean2
          rw [hclean2.1] at hcontra
          exact absurd hcontra (by simp)

/-- Claim C6, witness: a sweep over one candidate whose upstream route is a
single section without a transport object is returned as best, and the
theorem applies to it: its details contain no excluded product. -/
theorem C6_dticket_filter_witness :
    sweepTransit (fun _ => FetchResp.routes
        [[⟨none, some 600, some 500, none, none, "", ""⟩]]) 0 Mode.depart 0 1
        true =
      SweepTOut.okBest
        (⟨600, none, none, [Detail0.walk (some 600) (some 500)]⟩, 0) ∧
    (∀ d ∈ ((⟨600, none, none, [Detail0.walk (some 600) (some 500)]⟩,
        (0 : Int)) : TransitOk × Int).1.details,
      ∀ p, detailProduct d = some p →
        NON_D_TICKET_PRODUCTS.contains p = false) := by
  have hcand : sweepCandidates 0 Mode.depart 0 1 = [0] := by
    simp [sweepCandidates, offsetsLoop, effStep, jsOrN, natCeilDiv, MAX_PROBES,
      startOffOf, endOffOf]
  have hrun : sweepTransit (fun _ => FetchResp.routes
      [[⟨none, some 600, some 500, none, none, "", ""⟩]]) 0 Mode.depart 0 1
      true =
      SweepTOut.okBest
        (⟨600, none, none, [Detail0.walk (some 600) (some 500)]⟩, 0) := by
    rw [sweepTransit, hcand]
    decide
  exact ⟨hrun, C6_dticket_filter _ 0 Mode.depart 0 1 _ hrun⟩

/-! ## The bounded-concurrency pool runPool (part_000 lines 220-234)

The pool's scheduler state: i is the next index to start, active and done
are the counters, out the result array (none where no result was written),
running the indices started but not yet completed, resolved the value passed
to the promise's res, still none if res was never called. One transition
either starts the next worker (only when active is below the limit and items
remain, as the while loop does) or completes a running worker j: its finally
handler writes out[j], decrements active, increments done, and calls res(out)
exactly when done reaches the item count (otherwise next()). Every worker is
modelled by a total function f from index to value, since the claim concerns
the pool's own termination. The step relation admits every interleaving of
starts and completions, a superset of the event loop's real schedules, so
universal statements over it cover the program. -/

structure PoolState (α : Type) where
  i : Nat
  active : Nat
  done : Nat
  out : List (Option α)
  running : List Nat
  resolved : Option (List (Option α))
deriving DecidableEq

def poolInit (α : Type) (n : Nat) : PoolState α :=
  ⟨0, 0, 0, List.replicate n none, [], none⟩

/-- Starting the worker for index i (one iteration of the while loop). -/
def startStep {α : Type} (s : PoolState α) : PoolState α :=
  { s with i := s.i + 1, active := s.active + 1, running := s.running ++ [s.i] }

/-- Completion of running worker j: its then handler writes out[j], its
finally handler decrements active, increments done and resolves the pool's
promise with out when done reaches n. -/
def completeStep {α : Type} (n : Nat) (f : Nat → α) (s : PoolState α)
    (j : Nat) : PoolState α :=
  { s with
      active := s.active - 1,
      done := s.done + 1,
      out := s.out.set j (some (f j)),
      running := s.running.erase j,
      resolved :=
        if s.done + 1 = n then some (s.out.set j (some (f j))) else s.resolved }

/-- All states one scheduler step away. After resolution nothing observable
remains (done = n leaves no running worker and no index to start). -/
def successors {α : Type} (n limit : Nat) (f : Nat → α) (s : PoolState α) :
    List (PoolState α) :=
  if s.resolved.isSome then []
  else
    (if s.active < limit ∧ s.i < n then [startStep s] else []) ++
    s.running.map (completeStep n f s)

inductive PoolReach {α : Type} (n limit : Nat) (f : Nat → α) :
    PoolState α → PoolState α → Prop
  | refl (s) : PoolReach n limit f s s
  | tail {s t u} : PoolReach n limit f s t → u ∈ successors n limit f t →
      PoolReach n limit f s u

/-- Steps remaining: each start or completion decreases this measure. -/
def poolMeasure {α : Type} (n : Nat) (s : PoolState α) : Nat :=
  2 * n - (s.i + s.done)

/-- The resolved value the claim asserts: one entry per item, the worker
value at its input index. -/
def goodOut (α : Type) (n : Nat) (f : Nat → α) : List (Option α) :=
  (List.range n).map (fun j => some (f j))

/-- The scheduler invariant of runPool's state. -/
structure PoolInv (n : Nat) {α : Type} (f : Nat → α) (s : PoolState α) :
    Prop where
  hsum : s.done + s.active = s.i
  hin : s.i ≤ n
  hlen : s.out.length = n
  hnd : s.running.Nodup
  hrun_lt : ∀ j ∈ s.running, j < s.i
  hrun_len : s.running.length = s.active
  hdone_out : ∀ j, j < s.i → j ∉ s.running → s.out[j]? = some (some (f j))
  hpend_out : ∀ j, j < n → (s.i ≤ j ∨ j ∈ s.running) → s.out[j]? = some none
  hres_done : s.done = n → s.resolved = some s.out
  hres_val : ∀ o, s.resolved = some o → o = s.out ∧ s.done = n

theorem poolInv_init {α : Type} (n : Nat) (f : Nat → α) (hn : 1 ≤ n) :
    PoolInv n f (poolInit α n) := by
  refine ⟨rfl, Nat.zero_le n, by simp [poolInit], by simp [poolInit],
    ?_, rfl, ?_, ?_, ?_, ?_⟩
  · intro j hj; simp [poolInit] at hj
  · intro j hj _; simp [poolInit] at hj
  · intro j hj _
    simp [poolInit, List.getElem?_replicate, hj]
  · intro h0; simp [poolInit] at h0; omega
  · intro o ho; simp [poolInit] at ho

theorem poolInv_step {α : Type} (n limit : Nat) (f : Nat → α)
    (s t : PoolState α) (hs : PoolInv n f s)
    (ht : t ∈ successors n limit f s) : PoolInv n f t := by
  rw [successors] at ht
  by_cases hres : s.resolved.isSome
  · rw [if_pos hres] at ht; simp at ht
  · rw [if_neg hres] at ht
    have hresn : s.resolved = none := Option.not_isSome_iff_eq_none.mp hres
    have hsum := hs.hsum
    rcases List.mem_append.mp ht with hstart | hcomp
    · by_cases hcan : s.active < limit ∧ s.i < n
      · rw [if_pos hcan] at hstart
        simp only [List.mem_singleton] at hstart
        subst hstart
        refine ⟨by simp [startStep]; omega, by simp [startStep]; omega,
          by simp [startStep, hs.hlen], ?_, ?_, by simp [startStep, hs.hrun_len],
          ?_, ?_, ?_, ?_⟩
        · simp only [startStep, List.nodup_append]
          refine ⟨hs.hnd, List.nodup_singleton _, ?_⟩
          intro a ha hai
          rw [List.mem_singleton] at hai
          subst hai
          exact absurd (hs.hrun_lt _ ha) (lt_irrefl _)
        · intro j hj
          simp only [startStep, List.mem_append, List.mem_singleton] at hj
          rcases hj with hj | hj
          · exact Nat.lt_succ_of_lt (hs.hrun_lt j hj)
          · subst hj; exact Nat.lt_succ_self _
        · intro j hji hjr
          simp only [startStep, List.mem_append, List.mem_singleton] at hjr
          push_neg at hjr
          simp only [startStep] at hji ⊢
          have hji2 : j < s.i := by
            rcases Nat.lt_succ_iff_lt_or_eq.mp hji with h | h
            · exact h
            · exact absurd h hjr.2
          exact hs.hdone_out j hji2 hjr.1
        · intro j hjn hj
          simp only [startStep, List.mem_append, List.mem_singleton] at hj ⊢
          rcases hj with hj | hj | hj
          · exact hs.hpend_out j hjn (Or.inl (by omega))
          · exact hs.hpend_out j hjn (Or.inr hj)
          · subst hj; exact hs.hpend_out _ hjn (Or.inl (le_refl _))
        · intro hd
          simp only [startStep] at hd ⊢
          exact absurd hd (by omega)
        · intro o ho
          simp only [startStep] at ho
          rw [hresn] at ho
          cases ho
      · rw [if_neg hcan] at hstart; simp at hstart
    · rcases List.mem_map.mp hcomp with ⟨j, hjmem, hjt⟩
      subst hjt
      have hji : j < s.i := hs.hrun_lt j hjmem
      have hjn : j < n := lt_of_lt_of_le hji hs.hin
      have hact : 1 ≤ s.active := by
        rw [← hs.hrun_len]
        exact List.length_pos_of_mem hjmem
      have hin := hs.hin
      have hdone_lt : s.done < n := by
        rcases Nat.lt_or_ge s.done n with h | h
        · exact h
        · have hdn : s.done = n := by omega
          have := hs.hres_done hdn
          rw [hresn] at this
          cases this
      refine ⟨by simp [completeStep]; omega, by simp [completeStep, hs.hin],
        by simp [completeStep, hs.hlen], ?_, ?_, ?_, ?_, ?_, ?_, ?_⟩
      · exact hs.hnd.erase j
      · intro k hk
        simp only [completeStep] at hk
        exact hs.hrun_lt k (List.mem_of_mem_erase hk)
      · simp only [completeStep]
        rw [List.length_erase_of_mem hjmem, hs.hrun_len]
      · intro k hki hkr
        simp only [completeStep] at hki hkr ⊢
        by_cases hkj : k = j
        · subst hkj
          rw [List.getElem?_set_self (by rw [hs.hlen]; exact hjn)]
        · rw [List.getElem?_set_ne (fun h => hkj h.symm)]
          have hknr : k ∉ s.running := by
            intro hmem
            exact hkr ((hs.hnd.mem_erase_iff.mpr ⟨hkj, hmem⟩))
          exact hs.hdone_out k hki hknr
      · intro k hkn hk
        simp only [completeStep] at hk ⊢
        have hkj : k ≠ j := by
          rcases hk with hk | hk
          · omega
          · exact (hs.hnd.mem_erase_iff.mp hk).1
        rw [List.getElem?_set_ne (fun h => hkj h.symm)]
        rcases hk with hk | hk
        · exact hs.hpend_out k hkn (Or.inl hk)
        · exact hs.hpend_out k hkn (Or.inr (List.mem_of_mem_erase hk))
      · intro hd
        simp only [completeStep] at hd ⊢
        rw [if_pos (by omega)]
      · intro o ho
        simp only [completeStep] at ho ⊢
        by_cases hd : s.done + 1 = n
        · rw [if_pos hd] at ho
          injection ho with ho2
          exact ⟨ho2.symm, hd⟩
        · rw [if_neg hd] at ho
          rw [hresn] at ho
          cases ho

theorem poolInv_reach {α : Type} (n limit : Nat) (f : Nat → α)
    (s : PoolState α) (hn : 1 ≤ n)
    (h : PoolReach n limit f (poolInit α n) s) : PoolInv n f s := by
  induction h with
  | refl => exact poolInv_init n f hn
  | tail _ hmem ih => exact poolInv_step n limit f _ _ ih hmem

theorem pool_measure_decr {α : Type} (n limit : Nat) (f : Nat → α)
    (s t : PoolState α) (hinv : PoolInv n f s)
    (ht : t ∈ successors n limit f s) : poolMeasure n t < poolMeasure n s := by
  rw [successors] at ht
  by_cases hres : s.resolved.isSome
  · rw [if_pos hres] at ht; simp at ht
  · rw [if_neg hres] at ht
    have hresn : s.resolved = none := Option.not_isSome_iff_eq_none.mp hres
    have hsum := hinv.hsum
    have hin := hinv.hin
    rcases List.mem_append.mp ht with hstart | hcomp
    · by_cases hcan : s.active < limit ∧ s.i < n
      · rw [if_pos hcan] at hstart
        simp only [List.mem_singleton] at hstart
        subst hstart
        have h2 := hcan.2
        simp only [poolMeasure, startStep]
        omega
      · rw [if_neg hcan] at hstart; simp at hstart
    · rcases List.mem_map.mp hcomp with ⟨j, hjmem, hjt⟩
      subst hjt
      have hji : j < s.i := hinv.hrun_lt j hjmem
      have hdone_lt : s.done < n := by
        rcases Nat.lt_or_ge s.done n with h | h
        · exact h
        · have hdn : s.done = n := by omega
          have := hinv.hres_done hdn
          rw [hresn] at this
          cases this
      simp only [poolMeasure, completeStep]
      omega

theorem pool_stuck_resolved {α : Type} (n limit : Nat) (f : Nat → α)
    (s : PoolState α) (hlim : 1 ≤ limit) (hinv : PoolInv n f s)
    (hstuck : successors n limit f s = []) :
    s.resolved = some (goodOut α n f) := by
  rw [successors] at hstuck
  by_cases hres : s.resolved.isSome
  · obtain ⟨o, ho⟩ := Option.isSome_iff_exists.mp hres
    obtain ⟨ho2, hdn⟩ := hinv.hres_val o ho
    have hsum := hinv.hsum
    have hin := hinv.hin
    have hi : s.i = n := by omega
    have hact : s.active = 0 := by omega
    have hrun : s.running = [] := by
      rw [← List.length_eq_zero, hinv.hrun_len, hact]
    have hout : s.out = goodOut α n f := by
      apply List.ext_getElem?
      intro k
      by_cases hk : k < n
      · rw [hinv.hdone_out k (by omega) (by simp [hrun])]
        simp [goodOut, List.getElem?_map, List.getElem?_range, hk]
      · have h1 : s.out[k]? = none := by
          rw [List.getElem?_eq_none]
          rw [hinv.hlen]; omega
        have h2 : (goodOut α n f)[k]? = none := by
          rw [List.getElem?_eq_none]
          simp [goodOut]; omega
        rw [h1, h2]
    rw [ho, ho2, hout]
  · rw [if_neg hres] at hstuck
    have hresn : s.resolved = none := Option.not_isSome_iff_eq_none.mp hres
    have happ := List.append_eq_nil.mp hstuck
    have hrun : s.running = [] := List.map_eq_nil_iff.mp happ.2
    have hact : s.active = 0 := by
      rw [← hinv.hrun_len, hrun]; rfl
    have hnostart : ¬ (s.active < limit ∧ s.i < n) := by
      intro hcan
      rw [if_pos hcan] at happ
      cases happ.1
    have hi : s.i = n := by
      by_contra hne
      exact hnostart ⟨by omega, lt_of_le_of_ne hinv.hin hne⟩
    have hdn : s.done = n := by
      have := hinv.hsum; omega
    have := hinv.hres_done hdn
    rw [hresn] at this
    cases this

/-! ## Claim theorems for runPool -/

/-- Claim C9, counterexample to the claim as stated: with a nonempty items
array but limit 0 the pool makes no step at all and its promise is never
resolved, so termination does not hold for every limit. -/
theorem C9_counterexample :
    successors 1 0 (fun _ => (0 : Nat)) (poolInit Nat 1) = [] ∧
    (poolInit Nat 1).resolved = none := by
  constructor
  · rfl
  · rfl

/-- Claim C9, amended: with a positive limit, every scheduler step from a
reachable state strictly decreases the measure (so every execution of
runPool is finite), and every stuck reachable state is resolved with the
array of worker values at their input indices, provided items is nonempty;
for the empty items array the initial state is already stuck with the
promise unresolved, because the resolution check runs only inside a worker's
finally handler; and sweepTransit's candidate list is never empty (the
anchor instant is pushed when the window loop yields nothing), so the sweep
never passes an empty array to runPool. -/
theorem C9_pool_termination :
    (∀ (α : Type) (n limit : Nat) (f : Nat → α) (s : PoolState α),
      1 ≤ limit → 1 ≤ n → PoolReach n limit f (poolInit α n) s →
      ((∀ t ∈ successors n limit f s, poolMeasure n t < poolMeasure n s) ∧
       (successors n limit f s = [] → s.resolved = some (goodOut α n f)))) ∧
    (∀ (α : Type) (limit : Nat) (f : Nat → α),
      successors 0 limit f (poolInit α 0) = [] ∧
      (poolInit α 0).resolved = none) ∧
    (∀ (baseTs : Int) (mode : Mode) (windowMin stepMin : Nat),
      sweepCandidates baseTs mode windowMin stepMin ≠ []) := by
  refine ⟨?_, ?_, ?_⟩
  · intro α n limit f s hlim hn hreach
    have hinv := poolInv_reach n limit f s hn hreach
    exact ⟨fun t ht => pool_measure_decr n limit f s t hinv ht,
      fun hstuck => pool_stuck_resolved n limit f s hlim hinv hstuck⟩
  · intro α limit f
    refine ⟨?_, rfl⟩
    simp [successors, poolInit]
  · intro baseTs mode windowMin stepMin
    rw [sweepCandidates]
    by_cases h : ((offsetsLoop (startOffOf mode windowMin)
        (endOffOf mode windowMin) (effStep windowMin stepMin)).map
        (fun m => baseTs + m * 60)).isEmpty
    · simp only [h, if_true]
      simp
    · simp only [h, if_false]
      simpa [List.isEmpty_iff] using h

/-- Claim C9, witness: with one item and limit 1 the run start, complete is
reachable, stuck, and resolved with the single worker value at index 0. -/
theorem C9_pool_termination_witness :
    PoolReach 1 1 (fun _ => (7 : Nat)) (poolInit Nat 1)
      ⟨1, 0, 1, [some 7], [], some [some 7]⟩ ∧
    successors 1 1 (fun _ => (7 : Nat))
      (⟨1, 0, 1, [some 7], [], some [some 7]⟩ : PoolState Nat) = [] ∧
    (⟨1, 0, 1, [some 7], [], some [some 7]⟩ : PoolState Nat).resolved =
      some (goodOut Nat 1 (fun _ => 7)) := by
  have hreach : PoolReach 1 1 (fun _ => (7 : Nat)) (poolInit Nat 1)
      ⟨1, 0, 1, [some 7], [], some [some 7]⟩ := by
    have h1 : (⟨1, 1, 0, [none], [0], none⟩ : PoolState Nat) ∈
        successors 1 1 (fun _ => (7 : Nat)) (poolInit Nat 1) := by decide
    have h2 : (⟨1, 0, 1, [some 7], [], some [some 7]⟩ : PoolState Nat) ∈
        successors 1 1 (fun _ => (7 : Nat))
          (⟨1, 1, 0, [none], [0], none⟩ : PoolState Nat) := by decide
    exact PoolReach.tail (PoolReach.tail (PoolReach.refl _) h1) h2
  refine ⟨hreach, ?_, ?_⟩
  · decide
  · exact (C9_pool_termination.1 Nat 1 1 (fun _ => 7) _ (by decide) (by decide)
      hreach).2 (by decide)

/-! ## The HERE-only variant (src/unnamed/part_002)

Its hereTransitRoute (lines 59-128) normalizes one route. Its final OK
return object reads a shorthand property named transfers, an identifier that
is declared nowhere in the function or module, so evaluating the object
throws a ReferenceError on every successful route. -/

structure Section2 where
  transportMode : String
  transportName : String
  transportShortName : String
  agencyName : String
  summaryDuration : Option Int
  summaryLength : Option Int
  depTimeMs : Option Int
  arrTimeMs : Option Int
  depPlace : String
  arrPlace : String
deriving DecidableEq

inductive FetchResp2 where
  | httpError (code : Int) (message : String)
  | body (routes : List (List Section2))
deriving DecidableEq

/-- The line prefixes of the long-distance regex (part_002 line 38). -/
def ldPrefixes : List String :=
  ["ICE", "IC", "EC", "ECE", "RJ", "RJX", "D", "TLX"]

/-- String.prototype.includes. -/
def strIncludes (s pat : String) : Bool :=
  (List.range (s.length + 1)).any (fun k => pat.isPrefixOf (s.drop k))

/-- longDistanceMatcher (part_002 lines 34-40): the anchored alternation
tests whether the uppercased short name or name starts with one of the
prefixes, or the uppercased agency contains DB FERNVERKEHR. -/
def longDistanceMatcher (name shortName agency : String) : Bool :=
  (ldPrefixes.any (fun p => shortName.toUpper.startsWith p)) ||
  (ldPrefixes.any (fun p => name.toUpper.startsWith p)) ||
  strIncludes agency.toUpper "DB FERNVERKEHR"

/-- The D-Ticket filter of part_002 lines 84-93: some transit section whose
line matches the long-distance matcher. -/
def hasLD (sections : List Section2) : Bool :=
  sections.any (fun sec =>
    if sec.transportMode ≠ "transit" then false
    else longDistanceMatcher sec.transportName sec.transportShortName
      sec.agencyName)

/-- The duration fold of part_002 lines 96-102: per section its finite
summary duration, else the rounded nonnegative span between its parsed
endpoint times, else 0. -/
def duration2 (sections : List Section2) : Int :=
  sections.foldl (fun sum s =>
    match s.summaryDuration with
    | some sd => sum + sd
    | none =>
        match s.depTimeMs, s.arrTimeMs with
        | some dep, some arr => sum + max 0 (jsRoundDiv1000 (arr - dep))
        | _, _ => sum + 0) 0

inductive Detail2 where
  | transit (line agency fromName toName : String) (dep arr : Option Int)
  | walk (duration_sec : Int) (distance_m : Int)
  | other (type : String)
deriving DecidableEq

/-- The details mapping of part_002 lines 104-120. -/
def detail2Of (sec : Section2) : Detail2 :=
  if sec.transportMode = "transit" then
    Detail2.transit (jsOrS sec.transportShortName sec.transportName)
      sec.agencyName sec.depPlace sec.arrPlace
      (sec.depTimeMs.map (fun ms => Int.fdiv ms 1000))
      (sec.arrTimeMs.map (fun ms => Int.fdiv ms 1000))
  else if sec.transportMode = "pedestrian" then
    Detail2.walk (sec.summaryDuration.getD 0) (sec.summaryLength.getD 0)
  else Detail2.other (jsOrS sec.transportMode "OTHER").toUpper

/-- A JS exception escaping a function. -/
inductive JsError where
  | referenceError (msg : String)
deriving DecidableEq

/-- A non-OK status object returned by hereTransitRoute (part_002). -/
structure Status2 where
  status : String
  code : Option Int
  message : Option String
deriving DecidableEq

/-- hereTransitRoute of part_002 (lines 59-128): HTTP errors, missing routes
and filtered routes return plain status objects; on the success path the
duration, details and endpoint instants are computed and then the return
object literal reads the undeclared identifier transfers (line 127), which
throws ReferenceError before the OK object exists. The computed values are
bound and discarded, as the throw discards them. -/
def hereTransitRoute2 (resp : FetchResp2) (dticketOnly : Bool) :
    Except JsError Status2 :=
  match resp with
  | .httpError code msg => Except.ok ⟨"HTTP_ERROR", some code, some msg⟩
  | .body routes =>
      match routes.head? with
      | none => Except.ok ⟨"ZERO_RESULTS", none, none⟩
      | some sections =>
          if dticketOnly && hasLD sections then
            Except.ok ⟨"FILTERED_LONG_DISTANCE", none, none⟩
          else
            let _duration := duration2 sections
            let _details := sections.map detail2Of
            Except.error (JsError.referenceError "transfers is not defined")

/-- Whether a response reaches the success path of hereTransitRoute: a route
exists and is not rejected by the filter. -/
def usable2 (resp : FetchResp2) (dticketOnly : Bool) : Bool :=
  match resp with
  | .httpError _ _ => false
  | .body routes =>
      match routes.head? with
      | none => false
      | some sections => !(dticketOnly && hasLD sections)

inductive Geo2Out where
  | ok (title : String)
  | fail (status : String)
deriving DecidableEq

def isGeo2Ok : Geo2Out → Bool
  | .ok _ => true
  | .fail _ => false

/-- The candidate loop of sweepBest in part_002 (lines 140-145): sequential
awaited probes; a throw aborts the loop and rejects sweepBest's promise; an
OK status would be collected into options (the trace is omitted: debug off). -/
def sweep2Loop (upstream : Int → FetchResp2) (dticketOnly : Bool) :
    List Int → List (Status2 × Int) → Except JsError (List (Status2 × Int))
  | [], options => Except.ok options
  | ts :: rest, options =>
      match hereTransitRoute2 (upstream ts) dticketOnly with
      | .error e => .error e
      | .ok r =>
          sweep2Loop upstream dticketOnly rest
            (if r.status = "OK" then options ++ [(r, ts)] else options)

inductive Sweep2Out where
  | geocodeFail
  | zeroResults
  | okBest (best : Status2 × Int)
deriving DecidableEq

/-- The comparator of part_002 line 148 reads duration and transfers fields
that exist on no object that can reach the sort (options is provably always
empty in this variant), so it is modelled as the constant comparator. -/
def cmp2 (_ _ : Status2 × Int) : Int := 0

/-- sweepBest of part_002 (lines 131-150): geocode both ends (their
outcomes are inputs here), fail on either, then loop over the candidates;
an empty options list is ZERO_RESULTS, otherwise the sorted best. -/
def sweepBest2 (geoO geoD : Geo2Out) (upstream : Int → FetchResp2)
    (baseTs : Int) (windowMin stepMin : Nat) (mode : Mode)
    (dticketOnly : Bool) : Except JsError Sweep2Out :=
  if isGeo2Ok geoO = false ∨ isGeo2Ok geoD = false then
    Except.ok Sweep2Out.geocodeFail
  else
    match sweep2Loop upstream dticketOnly
        (candidatesList baseTs mode windowMin stepMin) [] with
    | .error e => .error e
    | .ok options =>
        match (sortJS cmp2 options).head? with
        | none => Except.ok Sweep2Out.zeroResults
        | some b => Except.ok (Sweep2Out.okBest b)

/-- The /transit handler of part_002 (lines 173-220): a rejection reaches
the catch and becomes 500 proxy_error; a non-OK sweep becomes 502 with its
status; an OK sweep becomes the 200 response. -/
def transitRespond2 (r : Except JsError Sweep2Out) : Nat × String :=
  match r with
  | .error _ => (500, "proxy_error")
  | .ok .geocodeFail => (502, "GEOCODE_FAIL")
  | .ok .zeroResults => (502, "ZERO_RESULTS")
  | .ok (.okBest _) => (200, "OK")

/-! ## Helper lemmas for the part_002 variant -/

theorem hereTransitRoute2_usable (resp : FetchResp2) (dticketOnly : Bool)
    (h : usable2 resp dticketOnly = true) :
    hereTransitRoute2 resp dticketOnly =
      Except.error (JsError.referenceError "transfers is not defined") := by
  cases resp with
  | httpError code msg => simp [usable2] at h
  | body routes =>
      cases hh : routes.head? with
      | none => rw [usable2, hh] at h; simp at h
      | some sections =>
          rw [usable2, hh] at h
          dsimp only at h
          rw [Bool.not_eq_true'] at h
          rw [hereTransitRoute2, hh]
          dsimp only
          rw [if_neg (by simp [h])]

theorem hereTransitRoute2_not_usable (resp : FetchResp2) (dticketOnly : Bool)
    (h : usable2 resp dticketOnly = false) :
    ∃ st : Status2, hereTransitRoute2 resp dticketOnly = Except.ok st ∧
      st.status ≠ "OK" := by
  cases resp with
  | httpError code msg =>
      exact ⟨_, rfl, by simp⟩
  | body routes =>
      cases hh : routes.head? with
      | none =>
          rw [hereTransitRoute2, hh]
          exact ⟨_, rfl, by simp⟩
      | some sections =>
          rw [usable2, hh] at h
          dsimp only at h
          rw [Bool.not_eq_false'] at h
          rw [hereTransitRoute2, hh]
          dsimp only
          rw [if_pos h]
          exact ⟨_, rfl, by simp⟩

theorem sweep2Loop_throws (upstream : Int → FetchResp2) (dticketOnly : Bool) :
    ∀ (cands : List Int) (options : List (Status2 × Int)),
      (∃ ts ∈ cands, usable2 (upstream ts) dticketOnly = true) →
      sweep2Loop upstream dticketOnly cands options =
        Except.error (JsError.referenceError "transfers is not defined") := by
  intro cands
  induction cands with
  | nil => intro options h; simp at h
  | cons c rest ih =>
      intro options h
      by_cases hc : usable2 (upstream c) dticketOnly = true
      · rw [sweep2Loop, hereTransitRoute2_usable _ _ hc]
      · rw [sweep2Loop]
        rcases hereTransitRoute2_not_usable (upstream c) dticketOnly
          (by simpa using hc) with ⟨st, hst, _⟩
        rw [hst]
        apply ih
        rcases h with ⟨ts, hts, hu⟩
        rcases List.mem_cons.mp hts with hts | hts
        · subst hts; exact absurd hu hc
        · exact ⟨ts, hts, hu⟩

theorem sweep2Loop_ok (upstream : Int → FetchResp2) (dticketOnly : Bool) :
    ∀ (cands : List Int) (options res : List (Status2 × Int)),
      sweep2Loop upstream dticketOnly cands options = Except.ok res →
      res = options := by
  intro cands
  induction cands with
  | nil =>
      intro options res h
      rw [sweep2Loop] at h
      injection h with h
      exact h.symm
  | cons c rest ih =>
      intro options res h
      rw [sweep2Loop] at h
      cases hc : hereTransitRoute2 (upstream c) dticketOnly with
      | error e => rw [hc] at h; cases h
      | ok st =>
          rw [hc] at h
          have hne : st.status ≠ "OK" := by
            by_cases hu : usable2 (upstream c) dticketOnly = true
            · rw [hereTransitRoute2_usable _ _ hu] at hc; cases hc
            · rcases hereTransitRoute2_not_usable (upstream c) dticketOnly
                (by simpa using hu) with ⟨st2, hst2, hne2⟩
              rw [hst2] at hc
              injection hc with hc
              exact hc ▸ hne2
          dsimp only at h
          rw [if_neg hne] at h
          exact ih options res h

/-! ## Claim theorem for the part_002 ReferenceError -/

/-- Claim C10: in the HERE-only variant, hereTransitRoute throws a
ReferenceError on every successful upstream route (route present and not
rejected by the filter), because its OK return object reads the undeclared
identifier transfers; consequently sweepBest there never produces an OK
result, and whenever geocoding succeeds and some candidate has a successful
upstream route, the /transit handler's catch answers 500 proxy_error. -/
theorem C10_transfers_undefined :
    (∀ (resp : FetchResp2) (dticketOnly : Bool),
      usable2 resp dticketOnly = true →
      hereTransitRoute2 resp dticketOnly =
        Except.error (JsError.referenceError "transfers is not defined")) ∧
    (∀ (geoO geoD : Geo2Out) (upstream : Int → FetchResp2) (baseTs : Int)
        (windowMin stepMin : Nat) (mode : Mode) (dticketOnly : Bool)
        (r : Sweep2Out),
      sweepBest2 geoO geoD upstream baseTs windowMin stepMin mode dticketOnly =
        Except.ok r → ∀ b, r ≠ Sweep2Out.okBest b) ∧
    (∀ (geoO geoD : Geo2Out) (upstream : Int → FetchResp2) (baseTs : Int)
        (windowMin stepMin : Nat) (mode : Mode) (dticketOnly : Bool),
      isGeo2Ok geoO = true → isGeo2Ok geoD = true →
      (∃ ts ∈ candidatesList baseTs mode windowMin stepMin,
        usable2 (upstream ts) dticketOnly = true) →
      transitRespond2 (sweepBest2 geoO geoD upstream baseTs windowMin stepMin
        mode dticketOnly) = (500, "proxy_error")) := by
  refine ⟨hereTransitRoute2_usable, ?_, ?_⟩
  · intro geoO geoD upstream baseTs windowMin stepMin mode dticketOnly r h b
    rw [sweepBest2] at h
    by_cases hg : isGeo2Ok geoO = false ∨ isGeo2Ok geoD = false
    · rw [if_pos hg] at h
      injection h with h
      rw [← h]
      simp
    · rw [if_neg hg] at h
      cases hloop : sweep2Loop upstream dticketOnly
          (candidatesList baseTs mode windowMin stepMin) [] with
      | error e => rw [hloop] at h; cases h
      | ok options =>
          rw [hloop] at h
          have hopts : options = [] :=
            sweep2Loop_ok upstream dticketOnly _ [] options hloop
          subst hopts
          simp only [sortJS, List.foldl_nil, List.head?_nil] at h
          injection h with h
          rw [← h]
          simp
  · intro geoO geoD upstream baseTs windowMin stepMin mode dticketOnly
      hgo hgd hex
    rw [sweepBest2,
      if_neg (by simp [hgo, hgd]),
      sweep2Loop_throws upstream dticketOnly _ [] hex]
    rfl

/-- Claim C10, witness: a concrete successful upstream route (one transit
section on a regional line, no filter) makes hereTransitRoute throw, the
sweep rejects, and the endpoint answers 500 proxy_error. -/
theorem C10_transfers_undefined_witness :
    usable2 (FetchResp2.body
      [[⟨"transit", "RE 10", "RE", "DB Regio", some 1200, none, none, none,
        "A", "B"⟩]]) false = true ∧
    hereTransitRoute2 (FetchResp2.body
      [[⟨"transit", "RE 10", "RE", "DB Regio", some 1200, none, none, none,
        "A", "B"⟩]]) false =
      Except.error (JsError.referenceError "transfers is not defined") ∧
    transitRespond2 (sweepBest2 (Geo2Out.ok "o") (Geo2Out.ok "d")
      (fun _ => FetchResp2.body
        [[⟨"transit", "RE 10", "RE", "DB Regio", some 1200, none, none, none,
          "A", "B"⟩]]) 0 0 1 Mode.depart false) = (500, "proxy_error") := by
  have hu : usable2 (FetchResp2.body
      [[⟨"transit", "RE 10", "RE", "DB Regio", some 1200, none, none, none,
        "A", "B"⟩]]) false = true := by decide
  have hcand : candidatesList 0 Mode.depart 0 1 = [0] := by
    simp [candidatesList, offsetsLoop, startOffOf, endOffOf]
  refine ⟨hu, C10_transfers_undefined.1 _ false hu, ?_⟩
  apply C10_transfers_undefined.2.2 (Geo2Out.ok "o") (Geo2Out.ok "d") _ 0 0 1
    Mode.depart false rfl rfl
  rw [hcand]
  exact ⟨0, List.mem_singleton_self 0, hu⟩

end Prologistics
